import Mathlib

/-!
Verification development for the happy-fractal repository: a shallow
embedding of the Q4.124 fixed-point library (src/r128.h), the OpenCL
escape-time kernels (src/opencl/mandelbrot_calc_r128.c and the
floating-point kernel variant), and the viewport/compute scheduler
(src/main.cpp), together with theorems settling the specification claims.

Machine integers are modelled as `Nat` with explicit `% 2^64` wraparound;
a 64-bit word's bitwise complement `~x` is written `2^64 - 1 - x`, which
is exact for `x < 2^64`.  Double-precision values appearing in the float
conversion routines and the floating-point kernel are modelled as exact
rationals; every theorem relying on that model is evaluated only at
inputs where the corresponding IEEE-754 double operations are exact
(powers of two and small integers), as noted at each use.
-/

/-- The number of distinct 64-bit words, `2^64`. -/
def W64 : ℕ := 18446744073709551616

/-- The number of distinct 128-bit values, `2^128`. -/
def W128 : ℕ := 340282366920938463463374607431768211456

/-- A 128-bit value as stored by the library: a low and a high 64-bit word
(struct R128 in src/r128.h). -/
structure R128 where
  lo : ℕ
  hi : ℕ
  deriving DecidableEq, Repr

/-- The raw 128-bit unsigned integer denoted by an `R128` pair. -/
def r128Raw (v : R128) : ℕ := v.lo + W64 * v.hi

/-- Both words of an `R128` are genuine 64-bit words. -/
def r128Wf (v : R128) : Prop := v.lo < W64 ∧ v.hi < W64

instance (v : R128) : Decidable (r128Wf v) := by
  unfold r128Wf; infer_instance

/-- Reinterpret a 64-bit word as a signed 64-bit integer (the C cast
`(R128_S64)w`). -/
def toS64 (w : ℕ) : ℤ := if w < 2 ^ 63 then (w : ℤ) else (w : ℤ) - W64

/-- Reinterpret a signed 64-bit integer as a 64-bit word (the C cast
`(R128_U64)v`). -/
def toU64 (v : ℤ) : ℕ := (v % (W64 : ℤ)).toNat

/-- Two's-complement negation across the 128-bit pair, with the explicit
`lo == 0` carry case (r128__neg, src/r128.h lines 252-261). -/
def r128__neg (src : R128) : R128 :=
  if src.lo ≠ 0 then
    ⟨(W64 - 1 - src.lo + 1) % W64, W64 - 1 - src.hi⟩
  else
    ⟨0, (W64 - 1 - src.hi + 1) % W64⟩

/-- The 64x64 -> 128 bit unsigned multiply built from four 32-bit partial
products with an explicit carry word (r128__umul128, src/r128.h lines
264-286).  The `(R128_U32)` casts are `% 2^32`, the 64-bit sums wrap at
`2^64`. -/
def r128__umul128 (a b : ℕ) : R128 :=
  let alo := a % 2 ^ 32
  let ahi := (a / 2 ^ 32) % 2 ^ 32
  let blo := b % 2 ^ 32
  let bhi := (b / 2 ^ 32) % 2 ^ 32
  let p0 := alo * blo
  let p1 := alo * bhi
  let p2 := ahi * blo
  let p3 := ahi * bhi
  let carry := (p1 % 2 ^ 32 + p2 % 2 ^ 32 + p0 / 2 ^ 32) / 2 ^ 32
  let lo := (p0 + ((p1 + p2) % W64) * 2 ^ 32) % W64
  let hi := (p3 + ((p1 / 2 ^ 32) % 2 ^ 32 + (p2 / 2 ^ 32) % 2 ^ 32) + carry) % W64
  ⟨lo, hi⟩

/-- 128-bit addition with carry propagation from the low into the high
word (r128Add, src/r128.h lines 449-459). -/
def r128Add (a b : R128) : R128 :=
  let r := (a.lo + b.lo) % W64
  let carry := if r < a.lo then 1 else 0
  ⟨r, (a.hi + b.hi + carry) % W64⟩

/-- 128-bit subtraction with borrow propagation (r128Sub, src/r128.h
lines 461-471).  64-bit subtraction wraps, so `a.lo - b.lo` is
`(a.lo + 2^64 - b.lo) % 2^64`. -/
def r128Sub (a b : R128) : R128 :=
  let r := (a.lo + W64 - b.lo) % W64
  let borrow := if r > a.lo then 1 else 0
  ⟨r, (a.hi + 2 * W64 - b.hi - borrow) % W64⟩

/-- Logical left shift of the pair by `amount mod 128` (r128Shl,
src/r128.h lines 409-427). -/
def r128Shl (src : R128) (amount : ℕ) : R128 :=
  let amt := amount % 128
  if 64 ≤ amt then
    ⟨0, (src.lo <<< (amt - 64)) % W64⟩
  else if amt ≠ 0 then
    ⟨(src.lo <<< amt) % W64, ((src.hi <<< amt) % W64 ||| src.lo >>> (64 - amt)) % W64⟩
  else
    ⟨src.lo, src.hi⟩

/-- Logical right shift of the pair by `amount mod 128` (r128Shr,
src/r128.h lines 429-447). -/
def r128Shr (src : R128) (amount : ℕ) : R128 :=
  let amt := amount % 128
  if 64 ≤ amt then
    ⟨src.hi >>> (amt - 64), 0⟩
  else if amt ≠ 0 then
    ⟨(src.lo >>> amt ||| (src.hi <<< (64 - amt)) % W64) % W64, src.hi >>> amt⟩
  else
    ⟨src.lo, src.hi⟩

/-- The unsigned 128x128 multiply rescaled for the Q4.124 format: four
64x64 partial products, the high-high product shifted right by 60, the
low-low product shifted right by 64, the two cross products accumulated
at full weight (r128__umul, src/r128.h lines 307-329). -/
def r128__umul (a b : R128) : R128 :=
  let albl := r128__umul128 a.lo b.lo
  let ahbl := r128__umul128 a.hi b.lo
  let albh := r128__umul128 a.lo b.hi
  let ahbh := r128__umul128 a.hi b.hi
  let ahbh2 := r128Shr ahbh 60
  let sum0 : R128 := ⟨0, ahbh2.lo⟩
  let albl2 : R128 := ⟨albl.hi, 0⟩
  let sum1 := r128Add sum0 albl2
  let sum2 := r128Add sum1 ahbl
  let sum3 := r128Add sum2 albh
  sum3

/-- Quick sign test: the sign bit of the high word (r128IsNeg,
src/r128.h lines 515-518). -/
def r128IsNeg (v : R128) : Bool := decide (toS64 v.hi < 0)

/-- Signed multiply: strip the signs, do the unsigned multiply, reapply
the combined sign (r128Mul, src/r128.h lines 473-496). -/
def r128Mul (a b : R128) : R128 :=
  let ta := if r128IsNeg a then r128__neg a else a
  let tb := if r128IsNeg b then r128__neg b else b
  let sign := xor (r128IsNeg a) (r128IsNeg b)
  let tc := r128__umul ta tb
  if sign then r128__neg tc else tc

/-- Signed comparison of two pairs: high words as signed 64-bit values,
low words as unsigned on ties (r128Cmp, src/r128.h lines 498-513). -/
def r128Cmp (a b : R128) : ℤ :=
  if a.hi = b.hi then
    if a.lo = b.lo then 0
    else if a.lo > b.lo then 1
    else -1
  else if toS64 a.hi > toS64 b.hi then 1
  else -1

/-- Conversion from a signed 64-bit integer: shift into the high word
(r128FromInt, src/r128.h lines 331-335). -/
def r128FromInt (v : ℤ) : R128 := ⟨0, (toU64 v <<< 60) % W64⟩

/-- Minimum (most negative) representable value (R128_min, src/r128.h
line 245). -/
def R128_min : R128 := ⟨0, 0x8000000000000000⟩

/-- Maximum (most positive) representable value (R128_max, src/r128.h
line 246). -/
def R128_max : R128 := ⟨0xffffffffffffffff, 0x7fffffffffffffff⟩

/-- Smallest positive value (R128_smallest, src/r128.h line 247). -/
def R128_smallest : R128 := ⟨1, 0⟩

/-- Zero (R128_zero, src/r128.h line 248). -/
def R128_zero : R128 := ⟨0, 0⟩

/-- The library's `1.0` constant (R128_one, src/r128.h line 249),
kept verbatim from the source: `{ 0, 1 }`. -/
def R128_one : R128 := ⟨0, 1⟩

/-- Truncation of a rational toward zero (the C cast `(R128_S32)v` /
`(R128_S64)v`, defined for in-range arguments; every use below is at
magnitude below `2^31`). -/
def truncToInt (v : ℚ) : ℤ := v.num / v.den

/-- Conversion from a double (r128FromFloat, src/r128.h lines 337-364),
with the double modelled as an exact rational.  All double operations in
the else-branch are exact for inputs of magnitude below `2^31`: the
integer-part subtraction is exact, and the scaling `v * 2^60` is a power
of two.  The final statement `r.lo = (R128_U64)(v * 2^64)` converts a
value of `frac * 2^124`, which for a nonzero fraction exceeds the 64-bit
range, so that conversion's result is not defined by C; it is taken here
as an arbitrary word `loUB` (for a zero fraction the conversion is the
well-defined `0`). -/
def r128FromFloat (v : ℚ) (loUB : ℕ) : R128 :=
  if v < -(2 ^ 63 : ℚ) then R128_min
  else if (2 ^ 63 : ℚ) ≤ v then R128_max
  else
    let sign := decide (v < 0)
    let va := if v < 0 then -v else v
    let ip : ℤ := truncToInt va
    let frac : ℚ := va - (ip : ℚ)
    let hi0 := (toU64 ip <<< 60) % W64
    let fracHigh : ℕ := (frac * 2 ^ 60).num.toNat / (frac * 2 ^ 60).den
    let hi := ((hi0 &&& 0xF000000000000000) + fracHigh) % W64
    let lo := if frac = 0 then 0 else loUB
    let r : R128 := ⟨lo, hi⟩
    if sign then r128__neg r else r

/-- Conversion to a double (r128ToFloat, src/r128.h lines 375-396), with
the double modelled as an exact rational.  The source masks the high
word's fraction with `0xFFFFFFFFFFFFFF` (fourteen F digits, 56 bits)
before dividing by `2^60`; that constant is kept verbatim. -/
def r128ToFloat (v : R128) : ℚ :=
  let tmp := if r128IsNeg v then r128__neg v else v
  let d : ℚ := (tmp.hi >>> 60 : ℕ)
  let d := d + ((tmp.hi &&& 0xFFFFFFFFFFFFFF : ℕ) : ℚ) / 2 ^ 60
  let d := d + (tmp.lo : ℚ) / 2 ^ 60 / 2 ^ 64
  if r128IsNeg v then -d else d

/-! ## The OpenCL fixed-point kernel (src/opencl/mandelbrot_calc_r128.c)

The kernel carries `R128` values in `ulong2` vectors; `.lo` is the first
component.  The kernel has its own copies of the arithmetic helpers,
which differ from the host library in several places (negation without
the `lo == 0` carry case, a dedicated squaring path, and a general
multiply that accumulates the single cross partial product twice). -/

namespace CLR128

/-- Kernel 128-bit add (r128Add, kernel lines 1-7). -/
def r128Add (a b : R128) : R128 :=
  let lo := (a.lo + b.lo) % W64
  ⟨lo, (a.hi + b.hi + (if lo < a.lo then 1 else 0)) % W64⟩

/-- Kernel 128-bit subtract (r128Sub, kernel lines 9-15). -/
def r128Sub (a b : R128) : R128 :=
  let lo := (a.lo + W64 - b.lo) % W64
  ⟨lo, (a.hi + 2 * W64 - b.hi - (if lo > a.lo then 1 else 0)) % W64⟩

/-- Kernel 64x64 -> 128 unsigned multiply (r128__umul128, kernel lines
17-37); identical arithmetic to the host version. -/
def r128__umul128 (a b : ℕ) : R128 :=
  let alo := a &&& 0xFFFFFFFF
  let ahi := a >>> 32
  let blo := b &&& 0xFFFFFFFF
  let bhi := b >>> 32
  let p0 := alo * blo
  let p1 := alo * bhi
  let p2 := ahi * blo
  let p3 := ahi * bhi
  let carry := ((p1 &&& 0xFFFFFFFF) + (p2 &&& 0xFFFFFFFF) + (p0 >>> 32)) >>> 32
  ⟨(p0 + (((p1 + p2) % W64) <<< 32) % W64) % W64,
   (p3 + ((p1 >>> 32) % 2 ^ 32 + (p2 >>> 32) % 2 ^ 32) + carry) % W64⟩

/-- Kernel squaring variant of the 64x64 multiply (r128__umul128S,
kernel lines 39-56): the two equal cross products are folded into one
doubled term. -/
def r128__umul128S (a : ℕ) : R128 :=
  let alo := a &&& 0xFFFFFFFF
  let ahi := a >>> 32
  let p0 := alo * alo
  let p1 := alo * ahi
  let p3 := ahi * ahi
  let carry := ((p1 &&& 0xFFFFFFFF) * 2 + (p0 >>> 32)) >>> 32
  ⟨(p0 + (p1 <<< 33) % W64) % W64,
   (p3 + (p1 >>> 31) % 2 ^ 32 + carry) % W64⟩

/-- Kernel right shift (r128Shr, kernel lines 58-64): no masking of the
amount; only used with amount 60. -/
def r128Shr (src : R128) (amount : ℕ) : R128 :=
  ⟨(src.lo >>> amount ||| (src.hi <<< (64 - amount)) % W64) % W64, src.hi >>> amount⟩

/-- Kernel unsigned multiply core (r128__umul, kernel lines 66-80): like
the host core, but the `a.lo * b.hi` partial product is never formed —
the `a.hi * b.lo` product is accumulated twice instead. -/
def r128__umul (a b : R128) : R128 :=
  let sumLo := (r128__umul128 a.lo b.lo).hi
  let ahbl := r128__umul128 a.hi b.lo
  let ahbh := r128__umul128 a.hi b.hi
  let ahbh2 := r128Shr ahbh 60
  let sum0 : R128 := ⟨sumLo, ahbh2.lo⟩
  let sum1 := r128Add sum0 ahbl
  r128Add sum1 ahbl

/-- Kernel inline two's-complement negation used inside r128Mul and
r128Square (kernel lines 90-99): `lo = ~lo + 1; hi = ~hi`, with no carry
into the high word when `lo == 0`. -/
def inlineNeg (v : R128) : R128 :=
  ⟨(W64 - 1 - v.lo + 1) % W64, W64 - 1 - v.hi⟩

/-- Kernel signed multiply (r128Mul, kernel lines 82-109). -/
def r128Mul (a b : R128) : R128 :=
  let sa := decide (toS64 a.hi < 0)
  let sb := decide (toS64 b.hi < 0)
  let ta := if sa then inlineNeg a else a
  let tb := if sb then inlineNeg b else b
  let tc := r128__umul ta tb
  if xor sa sb then inlineNeg tc else tc

/-- Kernel signed squaring (r128Square, kernel lines 111-131): strips the
sign, then runs the squaring-specialised partial products. -/
def r128Square (a : R128) : R128 :=
  let ta := if decide (toS64 a.hi < 0) then inlineNeg a else a
  let sumLo := (r128__umul128S ta.lo).hi
  let ahbl := r128__umul128 ta.hi ta.lo
  let ahbh := r128__umul128S ta.hi
  let ahbh2 := r128Shr ahbh 60
  let sum0 : R128 := ⟨sumLo, ahbh2.lo⟩
  let sum1 := r128Add sum0 ahbl
  r128Add sum1 ahbl

/-- A complex point: a pair of `R128` values, the flat layout of the
packed host `Complex` struct crossing into the kernel's `ulong4`. -/
structure Complex where
  real : R128
  imag : R128
  deriving DecidableEq, Repr

/-- The kernel's escape test (kernel line 150): the high word of
`re² + im²`, reinterpreted as a signed 64-bit integer, is at least
`0x4000000000000000`. -/
def breakCond (sum : R128) : Bool := decide (0x4000000000000000 ≤ toS64 sum.hi)

/-- One full pass of the kernel's escape loop body up to the break test
(kernel lines 145-150): the products are computed, then the sum feeding
the break test.  Returns (tmp, re², im², sum). -/
def loopProducts (pt : Complex) : R128 × R128 × R128 × R128 :=
  let tmp := r128Mul pt.real pt.imag
  let sqRe := r128Square pt.real
  let sqIm := r128Square pt.imag
  (tmp, sqRe, sqIm, r128Add sqRe sqIm)

/-- The kernel's escape loop (kernel lines 144-157), with the remaining
iteration budget as structural fuel; `iterations` tracks the loop
counter.  Returns the final value of `iterations`. -/
def mandelGo (opt : Complex) : ℕ → Complex → ℕ → ℕ
  | 0, _, iterations => iterations
  | fuel + 1, pt, iterations =>
    let (tmp, sqRe, sqIm, sum) := loopProducts pt
    if breakCond sum then iterations
    else
      let re2 := r128Add (r128Sub sqRe sqIm) opt.real
      let im2 := r128Add (r128Add tmp tmp) opt.imag
      mandelGo opt fuel ⟨re2, im2⟩ (iterations + 1)

/-- The final loop counter for one point (kernel lines 140-157). -/
def mandelIters (opt : Complex) (maxIterations : ℕ) : ℕ :=
  mandelGo opt maxIterations opt 0

/-- The packed color word written for an escaping point (kernel line
162). -/
def packColor (iterations : ℕ) : ℕ :=
  ((iterations &&& 0xFF) <<< 16) ||| ((iterations &&& 0x07) <<< 6)

/-- The output word for one point (kernel lines 159-162). -/
def mandelOut (opt : Complex) (maxIterations : ℕ) : ℕ :=
  let iterations := mandelIters opt maxIterations
  if iterations = maxIterations then 0 else packColor iterations

end CLR128

/-! ## The floating-point OpenCL kernel (src/unnamed/part_000)

Doubles are modelled as exact rationals.  Every theorem below that
involves this model evaluates it only at points where the corresponding
IEEE-754 operations are exact. -/

namespace CLFloat

/-- A complex point as a `double2`, modelled over the rationals. -/
structure C2 where
  x : ℚ
  y : ℚ
  deriving DecidableEq, Repr

/-- The componentwise squaring `pt *= pt` opening the loop body
(part_000 line 17). -/
def squareStep (pt : C2) : C2 := ⟨pt.x * pt.x, pt.y * pt.y⟩

/-- The escape test after squaring (part_000 line 19): strictly greater
than 4. -/
def escTest (pt : C2) : Bool := decide (pt.x + pt.y > 4)

/-- The while loop of the float kernel (part_000 lines 16-28), with the
remaining iteration budget as structural fuel; `tmp` carries the product
`pt.x * pt.y` computed at the end of the previous body. -/
def floatGo (opt : C2) : ℕ → C2 → ℚ → ℕ → ℕ
  | 0, _, _, iterations => iterations
  | fuel + 1, pt, tmp, iterations =>
    let pt1 := squareStep pt
    if escTest pt1 then iterations
    else
      let px := pt1.x - pt1.y
      let py := 2 * tmp
      let pt2 : C2 := ⟨px + opt.x, py + opt.y⟩
      floatGo opt fuel pt2 (pt2.x * pt2.y) (iterations + 1)

/-- The cardioid / period-2 bulb membership pretest (part_000 lines
12-14), which forces `iterations = max_iterations` for known-interior
points. -/
def cardioidTest (opt : C2) : Bool :=
  let q := (opt.x - 0.25) * (opt.x - 0.25) + opt.y * opt.y
  decide (q * (q + (opt.x - 0.25)) ≤ 0.25 * opt.y * opt.y)

/-- The final loop counter for one point of the float kernel (part_000
lines 8-28). -/
def mandelIters (opt : C2) (maxIterations : ℕ) : ℕ :=
  if cardioidTest opt then maxIterations
  else floatGo opt maxIterations opt (opt.x * opt.y) 0

/-- The output word for one point of the float kernel (part_000 lines
30-33): the same packing as the fixed-point kernel. -/
def mandelOut (opt : C2) (maxIterations : ℕ) : ℕ :=
  let iterations := mandelIters opt maxIterations
  if iterations = maxIterations then 0 else CLR128.packColor iterations

end CLFloat

/-! ## The viewport and compute scheduler (src/main.cpp)

`MandelbrotState` holds the calculation flag, the recalc signal flag, the
viewport (origin, zoom, max iteration count).  `calculateMaxIterations`
(main.cpp lines 445-451) computes
`MIN_MAX_ITERATIONS * (1.5 - log(zoom)/log(MIN_ZOOM))` in double
precision; its result enters the state only through
`std::max(MIN_MAX_ITERATIONS, ...)`, so it is modelled as an arbitrary
natural number supplied at each request. -/

/-- A packed pair of fixed-point values storing a complex number
(struct Complex, main.cpp lines 62-65). -/
structure FComplex where
  real : R128
  imag : R128
  deriving DecidableEq, Repr

/-- Not allowed to calculate less iterations than this
(MIN_MAX_ITERATIONS, main.cpp line 54). -/
def MIN_MAX_ITERATIONS : ℕ := 70

/-- Not allowed to zoom out farther than this (MIN_ZOOM, main.cpp line
56): `Float(4.0)`, i.e. `r128FromFloat` applied to 4, whose fractional
part is zero so the conversion is exact. -/
def MIN_ZOOM : R128 := r128FromFloat 4 0

/-- `std::min` over `Float`, which compares through `operator<`, i.e.
`r128Cmp < 0` (r128.h lines 206-209): `min(a, b)` is `b` if `b < a`,
otherwise `a`. -/
def stdMinR128 (a b : R128) : R128 := if r128Cmp b a < 0 then b else a

/-- The scheduler-visible state of `MandelbrotState` (main.cpp lines
91-102): the calculation-in-progress flag, the recalc signal flag, and
the viewport. -/
structure MState where
  calcing : Bool
  recalc : Bool
  maxIterations : ℕ
  zoom : R128
  origin : FComplex
  deriving DecidableEq, Repr

/-- The state set up by the constructor (main.cpp lines 341-358, the
non-BENCHMARK branch): no calculation in progress, the recalc flag
cleared, 70 max iterations, zoom 4.0, origin (-1, 0). -/
def initState : MState :=
  { calcing := false
    recalc := false
    maxIterations := MIN_MAX_ITERATIONS
    zoom := MIN_ZOOM
    origin := ⟨r128FromInt (-1), r128FromInt 0⟩ }

/-- `scheduleRecalculation` (main.cpp lines 425-431): sets the recalc
flag only when no calculation is in progress. -/
def scheduleRecalculation (s : MState) : MState :=
  if s.calcing = false then { s with recalc := true } else s

/-- `moveOriginAndZoomBy` (main.cpp lines 387-398).  When no calculation
is in progress: offset the origin, clamp the new zoom with
`std::min(MIN_ZOOM, m_zoom * z)`, floor the new iteration cap with
`std::max(MIN_MAX_ITERATIONS, calculateMaxIterations(m_zoom))`, and
schedule a recalculation.  `miters` stands for the value computed by
`calculateMaxIterations` (double-precision, see section comment).
Returns the new state together with the returned `!m_calcing`. -/
def moveOriginAndZoomBy (s : MState) (c : FComplex) (z : R128) (miters : ℕ) :
    MState × Bool :=
  if s.calcing = false then
    let s1 := { s with
      origin := ⟨r128Add s.origin.real c.real, r128Add s.origin.imag c.imag⟩
      zoom := stdMinR128 MIN_ZOOM (r128Mul s.zoom z) }
    let s2 := { s1 with maxIterations := Nat.max MIN_MAX_ITERATIONS miters }
    (scheduleRecalculation s2, true)
  else
    (s, false)

/-- The states reachable from the constructor's state.  `move` is any
`moveOriginAndZoomBy` call (accepted or rejected), with the
double-precision `calculateMaxIterations` result universally
quantified.  `flag` covers the writes to `m_calcing` made by
`calculateBitmap` (true, main.cpp line 502) and `intoTexture` (false,
main.cpp line 418), and `clear` the worker's `m_recalc.clear()`
(main.cpp line 440); none of them touch the viewport. -/
inductive ReachM : MState → Prop
  | init : ReachM initState
  | move (s : MState) (c : FComplex) (z : R128) (miters : ℕ) :
      ReachM s → ReachM (moveOriginAndZoomBy s c z miters).1
  | flag (s : MState) (b : Bool) : ReachM s → ReachM { s with calcing := b }
  | clear (s : MState) : ReachM s → ReachM { s with recalc := false }

/-! ## The single-flight transition system (src/main.cpp)

A small-step model of the three tasks: the event thread issuing
requests, the worker thread (calcThread / calculateBitmap), and the
render thread (intoTexture).  Each transition is one atomic access to
the flags `m_calcing` / `m_recalc` (both atomics, defaulting to
sequentially consistent ordering), and `inFlight` counts evaluation
batches dispatched to the OpenCL queue and not yet collected.  The
requester's write of `m_recalc` is modelled without its `!m_calcing`
guard: the guard test and the flag write are two separate atomic
operations, so letting the flag be set at any moment over-approximates
the real interleavings, and a safety property proved over the larger
behavior set holds for the real ones. -/

namespace Sched

/-- The worker's control point: blocked in `m_recalc.wait(false)`
(main.cpp line 436); spinning in `while (m_calcing) yield` (lines
499-500); past the spin and about to set `m_calcing` and enqueue the
batch (lines 502-507); back from `calculateBitmap` and about to clear
`m_recalc` (lines 440-441). -/
inductive WPC
  | waiting
  | spin
  | launch
  | clear
  deriving DecidableEq, Repr

/-- The scheduler-relevant shared state. -/
structure SState where
  calcing : Bool
  recalc : Bool
  pc : WPC
  inFlight : ℕ
  deriving DecidableEq, Repr

/-- One atomic step of one of the three tasks:
`request` — `scheduleRecalculation` sets `m_recalc` (main.cpp 428);
`wake` — the worker's wait on `m_recalc` returns (436);
`spinExit` — the busy-wait observes `m_calcing == false` (499-500);
`launch` — `m_calcing = true` and the batch is enqueued (502-507);
`finish` — the worker clears `m_recalc` and notifies (440-441);
`collect` — `intoTexture` sees `m_calcing`, waits for `m_recalc` to
clear, reads the batch results back and sets `m_calcing = false`
(401-419). -/
inductive Step : SState → SState → Prop
  | request (s : SState) :
      Step s { s with recalc := true }
  | wake (s : SState) (h1 : s.pc = WPC.waiting) (h2 : s.recalc = true) :
      Step s { s with pc := WPC.spin }
  | spinExit (s : SState) (h1 : s.pc = WPC.spin) (h2 : s.calcing = false) :
      Step s { s with pc := WPC.launch }
  | launch (s : SState) (h1 : s.pc = WPC.launch) :
      Step s { s with calcing := true, inFlight := s.inFlight + 1, pc := WPC.clear }
  | finish (s : SState) (h1 : s.pc = WPC.clear) :
      Step s { s with recalc := false, pc := WPC.waiting }
  | collect (s : SState) (h1 : s.calcing = true) (h2 : s.recalc = false) :
      Step s { s with calcing := false, inFlight := s.inFlight - 1 }

/-- The initial state set up by the constructor (main.cpp 341-358): no
calculation in progress, the recalc flag cleared, the worker entering
its wait, nothing dispatched. -/
def init : SState := ⟨false, false, WPC.waiting, 0⟩

/-- States reachable by any interleaving of the three tasks. -/
inductive Reach : SState → Prop
  | init : Reach init
  | step (s t : SState) : Reach s → Step s t → Reach t

/-- The inductive invariant behind the single-flight property: at most
one batch is pending, none is pending whenever `m_calcing` is down, and
the worker only stands at the launch point with `m_calcing` down. -/
def Inv (s : SState) : Prop :=
  s.inFlight ≤ 1 ∧ (s.calcing = false → s.inFlight = 0) ∧
    (s.pc = WPC.launch → s.calcing = false)

end Sched

/-! ## Reference definitions taken from the specification

Used to compare the code's multiply against the spec's description; they
are built from the spec's words, not from the source. -/

/-- Modelled from the spec: the magnitude of a 128-bit two's-complement
value ("the two 128-bit two's-complement integers' magnitudes"). -/
def specMagnitude (v : R128) : ℕ :=
  if r128IsNeg v then r128Raw (r128__neg v) else r128Raw v

/-- Helper: rebuild an `R128` pair from a raw integer, truncating to 128
bits. -/
def r128OfRaw (n : ℕ) : R128 := ⟨n % W64, n / W64 % W64⟩

/-- Modelled from the spec: the unsigned part of the reference multiply —
"compute the full 256-bit product of the two magnitudes, rescale it to
Q4.124 alignment (shift right by 124 bits), truncate to 128 bits". -/
def specMulUnsigned (a b : R128) : R128 :=
  r128OfRaw ((specMagnitude a * specMagnitude b) >>> 124)

/-- Modelled from the spec: the full reference multiply — the unsigned
part with the combined sign reapplied. -/
def specMulReference (a b : R128) : R128 :=
  if xor (r128IsNeg a) (r128IsNeg b) then r128__neg (specMulUnsigned a b)
  else specMulUnsigned a b

/-! ## Basic facts about the embedded operations -/

/-- `r128Cmp` of a value with itself is zero. -/
theorem r128Cmp_self (a : R128) : r128Cmp a a = 0 := by
  unfold r128Cmp
  simp

/-- `std::min(MIN_ZOOM, x)` never exceeds `MIN_ZOOM` in the library's
signed order. -/
theorem stdMinR128_cmp_le (a x : R128) : r128Cmp (stdMinR128 a x) a ≤ 0 := by
  unfold stdMinR128
  by_cases hlt : r128Cmp x a < 0
  · simpa [hlt] using le_of_lt hlt
  · simp [hlt, r128Cmp_self]

/-- `scheduleRecalculation` does not change the zoom. -/
theorem scheduleRecalculation_zoom (s : MState) :
    (scheduleRecalculation s).zoom = s.zoom := by
  unfold scheduleRecalculation
  split <;> rfl

/-- `scheduleRecalculation` does not change the iteration cap. -/
theorem scheduleRecalculation_maxIterations (s : MState) :
    (scheduleRecalculation s).maxIterations = s.maxIterations := by
  unfold scheduleRecalculation
  split <;> rfl

/-! ## Claim C8 -/

/-- C8: the claim "for every FixedPoint value a, mul(a, one) == a, where
one is the library's 1.0 constant" fails at `a = r128FromInt 1`: in the
Q4.124 format `1.0` is the raw value `2^124` (high word `2^60`), but the
constant `R128_one` kept from the original 64.64 library is `{0, 1}`
(raw `2^64`, i.e. `2^-60`), contradicting its own `// 1.0` comment; the
product comes out as `{0, 1}` instead of `a`. -/
theorem mul_one_constant_not_identity :
    r128FromInt 1 = ⟨0, 2 ^ 60⟩ ∧
    r128Mul (r128FromInt 1) R128_one = ⟨0, 1⟩ ∧
    r128Mul (r128FromInt 1) R128_one ≠ r128FromInt 1 := by decide

/-! ## Claim C10 -/

/-- C10: whenever a calculation is in flight (`m_calcing` true) when
`moveOriginAndZoomBy` is called, the call returns false and leaves the
origin, the zoom and the max-iteration count unchanged — the delta is
discarded, not stored. -/
theorem moveOriginAndZoomBy_rejects_unchanged (s : MState) (c : FComplex)
    (z : R128) (miters : ℕ) (h : s.calcing = true) :
    moveOriginAndZoomBy s c z miters = (s, false) := by
  unfold moveOriginAndZoomBy
  simp [h]

/-- Witness for C10: a concrete in-flight state and request. -/
theorem moveOriginAndZoomBy_rejects_unchanged_witness :
    ({ initState with calcing := true } : MState).calcing = true ∧
    moveOriginAndZoomBy { initState with calcing := true }
        ⟨r128FromInt 1, r128FromInt 0⟩ (r128FromInt 1) 99 =
      ({ initState with calcing := true }, false) :=
  ⟨rfl, moveOriginAndZoomBy_rejects_unchanged _ _ _ _ rfl⟩

/-! ## Claim C3 -/

/-- C3 counterexample: the claim says a request arriving while Running is
rejected but its delta is "merged into the pending viewport".  At the
concrete in-flight state below, a request with delta (1, 0) is rejected
and the state is left exactly as it was — after two such requests the
origin still does not reflect the delta, so nothing was merged and no
merged job can ever be produced from those requests. -/
theorem request_during_running_not_merged :
    (moveOriginAndZoomBy { initState with calcing := true }
        ⟨r128FromInt 1, r128FromInt 0⟩ (r128FromInt 1) 70).2 = false ∧
    (moveOriginAndZoomBy { initState with calcing := true }
        ⟨r128FromInt 1, r128FromInt 0⟩ (r128FromInt 1) 70).1 =
      { initState with calcing := true } ∧
    ({ initState with calcing := true } : MState).origin.real ≠
      r128Add initState.origin.real (r128FromInt 1) :=
  ⟨rfl, rfl, by decide⟩

/-- C3 amended: a request arriving while a calculation is in flight is
rejected (returns false) and its delta is discarded — the scheduler
state, its viewport included, is left unchanged; hence two requests
arriving during one Running period leave the state unchanged and
schedule no job (any coalescing happens in the caller, which accumulates
deltas and retries). -/
theorem requests_during_running_discarded (s : MState) (c₁ c₂ : FComplex)
    (z₁ z₂ : R128) (m₁ m₂ : ℕ) (h : s.calcing = true) :
    (moveOriginAndZoomBy s c₁ z₁ m₁).2 = false ∧
    (moveOriginAndZoomBy (moveOriginAndZoomBy s c₁ z₁ m₁).1 c₂ z₂ m₂).2 = false ∧
    (moveOriginAndZoomBy (moveOriginAndZoomBy s c₁ z₁ m₁).1 c₂ z₂ m₂).1 = s := by
  unfold moveOriginAndZoomBy
  simp [h]

/-- Witness for the amended C3 theorem: the concrete in-flight state. -/
theorem requests_during_running_discarded_witness :
    ({ initState with calcing := true } : MState).calcing = true ∧
    (moveOriginAndZoomBy { initState with calcing := true }
        ⟨r128FromInt 1, r128FromInt 0⟩ (r128FromInt 1) 70).2 = false ∧
    (moveOriginAndZoomBy
        (moveOriginAndZoomBy { initState with calcing := true }
          ⟨r128FromInt 1, r128FromInt 0⟩ (r128FromInt 1) 70).1
        ⟨r128FromInt 0, r128FromInt 1⟩ (r128FromInt 1) 80).2 = false ∧
    (moveOriginAndZoomBy
        (moveOriginAndZoomBy { initState with calcing := true }
          ⟨r128FromInt 1, r128FromInt 0⟩ (r128FromInt 1) 70).1
        ⟨r128FromInt 0, r128FromInt 1⟩ (r128FromInt 1) 80).1 =
      { initState with calcing := true } :=
  ⟨rfl, requests_during_running_discarded _ _ _ _ _ _ _ rfl⟩

/-! ## Claim C6 -/

/-- C6: in every state reachable from the constructor's state by any
sequence of requests (accepted or rejected) and flag updates, the zoom
is at most the initial most-zoomed-out value 4.0 (in the library's
signed order) and the max-iteration count is at least the fixed floor
70. -/
theorem reachable_zoom_clamped_iters_floored (s : MState) (h : ReachM s) :
    r128Cmp s.zoom MIN_ZOOM ≤ 0 ∧ MIN_MAX_ITERATIONS ≤ s.maxIterations := by
  induction h with
  | init =>
    refine ⟨?_, le_refl _⟩
    show r128Cmp MIN_ZOOM MIN_ZOOM ≤ 0
    rw [r128Cmp_self]
  | move s c z miters hs ih =>
    by_cases hc : s.calcing = false
    · have h1 : (moveOriginAndZoomBy s c z miters).1 =
          scheduleRecalculation
            { s with
              origin := ⟨r128Add s.origin.real c.real, r128Add s.origin.imag c.imag⟩
              zoom := stdMinR128 MIN_ZOOM (r128Mul s.zoom z)
              maxIterations := Nat.max MIN_MAX_ITERATIONS miters } := by
        unfold moveOriginAndZoomBy
        simp [hc]
      rw [h1]
      refine ⟨?_, ?_⟩
      · rw [scheduleRecalculation_zoom]
        exact stdMinR128_cmp_le _ _
      · rw [scheduleRecalculation_maxIterations]
        exact Nat.le_max_left _ _
    · have h1 : (moveOriginAndZoomBy s c z miters).1 = s := by
        unfold moveOriginAndZoomBy
        simp [hc]
      rw [h1]
      exact ih
  | flag s b hs ih => exact ih
  | clear s hs ih => exact ih

/-- Witness for C6: the invariant at the initial state itself. -/
theorem reachable_zoom_clamped_iters_floored_witness :
    r128Cmp initState.zoom MIN_ZOOM ≤ 0 ∧
    MIN_MAX_ITERATIONS ≤ initState.maxIterations :=
  reachable_zoom_clamped_iters_floored initState ReachM.init

/-! ## Claim C2 -/

/-- Evaluation of `r128FromFloat` at 0.5: the else-branch is taken, the
sign is positive, the integer part is 0 and the fraction 1/2, so the
high word is `2^59`; the low word is the undefined out-of-range
conversion, which passes `loUB` through.  Every double-precision
operation along this path is exact (the values are 0, 1/2 and the
power-of-two scalings `2^59`, `2^123`). -/
theorem fromFloat_half (lo : ℕ) : r128FromFloat (1/2) lo = ⟨lo, 2 ^ 59⟩ := by
  unfold r128FromFloat truncToInt toU64
  norm_num
  decide

/-- Evaluation of `r128ToFloat` on a value with high word `2^59`: the
56-bit fraction mask `0xFFFFFFFFFFFFFF` wipes out bit 59 (weight 1/2 in
Q4.124), leaving only the low-word term. -/
theorem toFloat_evals (lo : ℕ) :
    r128ToFloat ⟨lo, 2 ^ 59⟩ = (lo : ℚ) / 2 ^ 60 / 2 ^ 64 := by
  unfold r128ToFloat r128IsNeg toS64
  norm_num [show (576460752303423488 : ℕ) >>> 60 = 0 from by decide,
    show (576460752303423488 : ℕ) &&& 72057594037927935 = 0 from by decide]

/-- C2: the round-trip claim fails at `v = 0.5`.  `r128FromFloat 0.5`
stores the fraction's top bit in bit 59 of the high word, but
`r128ToFloat` masks the high word with `0xFFFFFFFFFFFFFF` (56 bits
instead of the format's 60 fractional high-word bits), so bits 56-59 —
weights 1/16 through 1/2 — are dropped and the round trip returns at
most `2^-60` instead of 0.5, whatever word the undefined low-word
conversion produced.  The error exceeds 1/4, far beyond one unit in the
last place of the fixed format (`2^-124`). -/
theorem roundtrip_half_fails (lo : ℕ) (h : lo < W64) :
    1 / 2 - r128ToFloat (r128FromFloat (1/2) lo) > 1 / 4 := by
  rw [fromFloat_half, toFloat_evals]
  have hq : (lo : ℚ) < 2 ^ 64 := by
    unfold W64 at h
    exact_mod_cast h
  have h2 : (lo : ℚ) / 2 ^ 60 / 2 ^ 64 < 1 / 4 := by
    rw [div_div, div_lt_iff₀ (by positivity)]
    calc (lo : ℚ) < 2 ^ 64 := hq
    _ ≤ 1 / 4 * (2 ^ 60 * 2 ^ 64) := by norm_num
  linarith

/-- Witness for C2: the failing round trip with low word 0. -/
theorem roundtrip_half_fails_witness :
    (0 : ℕ) < W64 ∧ 1 / 2 - r128ToFloat (r128FromFloat (1/2) 0) > 1 / 4 :=
  ⟨by norm_num [W64], roundtrip_half_fails 0 (by norm_num [W64])⟩

/-! ## Claim C5 -/

/-- The packed color word is zero exactly when the escape iteration index
is divisible by 256: both `(i &&& 0xFF) <<< 16` and `(i &&& 0x07) <<< 6`
vanish precisely then. -/
theorem packColor_eq_zero_iff (i : ℕ) : CLR128.packColor i = 0 ↔ i % 256 = 0 := by
  unfold CLR128.packColor
  have h255 : i &&& 0xFF = i % 256 := by
    have h := Nat.and_pow_two_sub_one_eq_mod i 8
    norm_num at h
    exact h
  have h7 : i &&& 0x07 = i % 8 := by
    have h := Nat.and_pow_two_sub_one_eq_mod i 3
    norm_num at h
    exact h
  rw [h255, h7, Nat.shiftLeft_eq, Nat.shiftLeft_eq, Nat.mul_comm (i % 256),
    ← Nat.mul_add_lt_is_or (show i % 8 * 2 ^ 6 < 2 ^ 16 by omega) (i % 256)]
  omega

/-- C5 counterexample: the claim says the output word is 0 exactly when
the point does not escape within the cap.  The point (2, 0) escapes on
the very first loop pass of the fixed-point kernel (its loop counter
stops at 0, below the cap 70), yet the packed output is
`((0 & 0xFF) << 16) | ((0 & 7) << 6) = 0` — a zero output word for an
escaping point. -/
theorem zero_output_despite_escape :
    CLR128.mandelOut ⟨⟨0, 2 ^ 61⟩, ⟨0, 0⟩⟩ 70 = 0 ∧
    CLR128.mandelIters ⟨⟨0, 2 ^ 61⟩, ⟨0, 0⟩⟩ 70 ≠ 70 := by decide

/-- C5 amended: in both kernel variants the output word is 0 exactly
when the point does not escape within the cap (the loop counter reaches
the cap) or the escape iteration index is divisible by 256 (in
particular, escape on the very first pass); for every other escaping
point the output is the packed value
`((iterations & 0xFF) << 16) | ((iterations & 0x07) << 6)`, which is
nonzero. -/
theorem mandelOut_zero_iff :
    (∀ (opt : CLR128.Complex) (m : ℕ),
        CLR128.mandelOut opt m = 0 ↔
          CLR128.mandelIters opt m = m ∨ CLR128.mandelIters opt m % 256 = 0) ∧
    (∀ (opt : CLFloat.C2) (m : ℕ),
        CLFloat.mandelOut opt m = 0 ↔
          CLFloat.mandelIters opt m = m ∨ CLFloat.mandelIters opt m % 256 = 0) := by
  constructor
  · intro opt m
    unfold CLR128.mandelOut
    by_cases h : CLR128.mandelIters opt m = m
    · simp [h]
    · simp only [h, if_false]
      rw [packColor_eq_zero_iff]
      simp [h]
  · intro opt m
    unfold CLFloat.mandelOut
    by_cases h : CLFloat.mandelIters opt m = m
    · simp [h]
    · simp only [h, if_false]
      rw [packColor_eq_zero_iff]
      simp [h]

/-! ## Claim C7 -/

/-- C7 counterexample: the claim says the iteration breaks exactly when
`z.real² + z.imag²` is strictly greater than 4, and that a
magnitude-squared of exactly 4 does not trigger the break.  For the
point (2, 0) the fixed-point kernel computes `re² + im²` equal to the
fixed-point constant 4 exactly (`r128FromInt 4`, raw `2^126`), and its
break test `(long)sum.hi >= 0x4000000000000000` does fire.  (The
floating-point kernel's strict `> 4.0` test indeed does not fire there,
confirming the two variants disagree at the boundary.) -/
theorem break_fires_at_exactly_four :
    CLR128.r128Add (CLR128.r128Square ⟨0, 2 ^ 61⟩) (CLR128.r128Square ⟨0, 0⟩) =
      r128FromInt 4 ∧
    CLR128.breakCond (r128FromInt 4) = true ∧
    CLFloat.escTest (CLFloat.squareStep ⟨2, 0⟩) = false := by
  refine ⟨by decide, by decide, ?_⟩
  norm_num [CLFloat.escTest, CLFloat.squareStep]

/-- C7 amended: the fixed-point kernel's break test fires exactly when
the 128-bit value `z.real² + z.imag²` (as computed, after wraparound)
lies in the interval [4, 8) of the Q4.124 format — raw value in
`[2^126, 2^127)` — so equality with 4 does trigger the break there; the
floating-point kernel's test is the strict comparison
`z.real² + z.imag² > 4`, under the exact-rational model of doubles. -/
theorem breakCond_iff_ge_four :
    (∀ s : R128, r128Wf s →
        (CLR128.breakCond s = true ↔ 2 ^ 126 ≤ r128Raw s ∧ r128Raw s < 2 ^ 127)) ∧
    (∀ pt : CLFloat.C2,
        CLFloat.escTest (CLFloat.squareStep pt) = true ↔
          pt.x * pt.x + pt.y * pt.y > 4) := by
  constructor
  · intro s hs
    obtain ⟨hlo, hhi⟩ := hs
    unfold W64 at hlo hhi
    unfold CLR128.breakCond toS64 r128Raw W64
    by_cases h : s.hi < 2 ^ 63 <;> simp [h] <;> omega
  · intro pt
    simp [CLFloat.escTest, CLFloat.squareStep]

/-- Witness for the amended C7 theorem: the boundary sum 4.0 itself. -/
theorem breakCond_iff_ge_four_witness :
    r128Wf ⟨0, 2 ^ 62⟩ ∧
    (CLR128.breakCond ⟨0, 2 ^ 62⟩ = true ↔
      2 ^ 126 ≤ r128Raw ⟨0, 2 ^ 62⟩ ∧ r128Raw ⟨0, 2 ^ 62⟩ < 2 ^ 127) :=
  ⟨by decide, breakCond_iff_ge_four.1 ⟨0, 2 ^ 62⟩ (by decide)⟩

/-! ## Word-level characterisations of the multiply cores -/

/-- The product of two 64-bit words is below `2^128`. -/
theorem mulW64_lt (x y : ℕ) (hx : x < W64) (hy : y < W64) : x * y < W64 * W64 :=
  Nat.mul_lt_mul'' hx hy

/-- The host's 32-bit partial-product assembly computes the exact
64x64 -> 128 product, split into its two words. -/
theorem r128__umul128_eq (a b : ℕ) (ha : a < W64) (hb : b < W64) :
    r128__umul128 a b = ⟨a * b % W64, a * b / W64⟩ := by
  have ha1 : a / 2 ^ 32 < 2 ^ 32 := by unfold W64 at ha; omega
  have hb1 : b / 2 ^ 32 < 2 ^ 32 := by unfold W64 at hb; omega
  unfold r128__umul128
  simp only [Nat.mod_eq_of_lt ha1, Nat.mod_eq_of_lt hb1]
  have key : a * b = a % 2 ^ 32 * (b % 2 ^ 32)
      + 2 ^ 32 * (a % 2 ^ 32 * (b / 2 ^ 32))
      + 2 ^ 32 * (a / 2 ^ 32 * (b % 2 ^ 32))
      + 2 ^ 64 * (a / 2 ^ 32 * (b / 2 ^ 32)) := by
    conv_lhs => rw [← Nat.mod_add_div a (2 ^ 32), ← Nat.mod_add_div b (2 ^ 32)]
    ring
  have h0 : a % 2 ^ 32 * (b % 2 ^ 32) ≤ 4294967295 * 4294967295 :=
    Nat.mul_le_mul (by omega) (by omega)
  have h1 : a % 2 ^ 32 * (b / 2 ^ 32) ≤ 4294967295 * 4294967295 :=
    Nat.mul_le_mul (by omega) (by omega)
  have h2 : a / 2 ^ 32 * (b % 2 ^ 32) ≤ 4294967295 * 4294967295 :=
    Nat.mul_le_mul (by omega) (by omega)
  have h3 : a / 2 ^ 32 * (b / 2 ^ 32) ≤ 4294967295 * 4294967295 :=
    Nat.mul_le_mul (by omega) (by omega)
  rw [R128.mk.injEq]
  unfold W64
  refine ⟨by omega, by omega⟩

/-- Packing a well-formed pair. -/
theorem r128Wf_mk (lo hi : ℕ) (h1 : lo < W64) (h2 : hi < W64) :
    r128Wf ⟨lo, hi⟩ := ⟨h1, h2⟩

/-- `r128OfRaw` always yields genuine 64-bit words. -/
theorem r128OfRaw_wf (n : ℕ) : r128Wf (r128OfRaw n) := by
  unfold r128Wf r128OfRaw W64
  exact ⟨Nat.mod_lt _ (by norm_num), Nat.mod_lt _ (by norm_num)⟩

/-- Going to a raw integer and back is reduction modulo `2^128`. -/
theorem r128Raw_ofRaw (n : ℕ) : r128Raw (r128OfRaw n) = n % W128 := by
  unfold r128Raw r128OfRaw W64 W128
  dsimp only
  omega

/-- `r128OfRaw` only depends on its argument modulo `2^128`. -/
theorem r128OfRaw_congr (m n : ℕ) (h : m % W128 = n % W128) :
    r128OfRaw m = r128OfRaw n := by
  unfold W128 at h
  unfold r128OfRaw W64
  rw [R128.mk.injEq]
  refine ⟨by omega, by omega⟩

/-- The host add is 128-bit addition modulo `2^128`. -/
theorem r128Add_eq (a b : R128) (ha : r128Wf a) (hb : r128Wf b) :
    r128Add a b = r128OfRaw (r128Raw a + r128Raw b) := by
  obtain ⟨h1, h2⟩ := ha
  obtain ⟨h3, h4⟩ := hb
  unfold W64 at h1 h2 h3 h4
  unfold r128Add r128OfRaw r128Raw W64
  rw [R128.mk.injEq]
  refine ⟨by omega, ?_⟩
  split <;> omega

/-- The low word of the host's 60-bit right shift of a split product. -/
theorem r128Shr60_lo (p : ℕ) :
    (r128Shr ⟨p % W64, p / W64⟩ 60).lo = p / 2 ^ 60 % W64 := by
  unfold r128Shr W64
  norm_num
  rw [Nat.shiftRight_eq_div_pow, Nat.shiftLeft_eq]
  have hY : p / 18446744073709551616 * 2 ^ 4 % 18446744073709551616 =
      2 ^ 4 * (p / 18446744073709551616 % 2 ^ 60) := by omega
  rw [hY, Nat.lor_comm, ← Nat.mul_add_lt_is_or (by omega) _]
  omega

/-- The host multiply core in closed form: on well-formed operands it
returns, modulo `2^128`, the high-high product rescaled by 60 bits and
truncated to one word, plus the low-low product shifted down one word,
plus both cross products at full weight. -/
theorem r128__umul_eq (a b : R128) (ha : r128Wf a) (hb : r128Wf b) :
    r128__umul a b = r128OfRaw
      (a.hi * b.hi / 2 ^ 60 % W64 * W64 + a.lo * b.lo / W64
        + a.hi * b.lo + a.lo * b.hi) := by
  obtain ⟨halo, hahi⟩ := ha
  obtain ⟨hblo, hbhi⟩ := hb
  have pll := mulW64_lt a.lo b.lo halo hblo
  have phl := mulW64_lt a.hi b.lo hahi hblo
  have plh := mulW64_lt a.lo b.hi halo hbhi
  unfold r128__umul
  rw [r128__umul128_eq a.lo b.lo halo hblo, r128__umul128_eq a.hi b.lo hahi hblo,
    r128__umul128_eq a.lo b.hi halo hbhi, r128__umul128_eq a.hi b.hi hahi hbhi]
  dsimp only
  rw [r128Shr60_lo]
  have w1 : r128Wf ⟨0, a.hi * b.hi / 2 ^ 60 % W64⟩ :=
    r128Wf_mk _ _ (by unfold W64; norm_num) (Nat.mod_lt _ (by unfold W64; norm_num))
  have w2 : r128Wf ⟨a.lo * b.lo / W64, 0⟩ :=
    r128Wf_mk _ _ (by unfold W64 at *; omega) (by unfold W64; norm_num)
  have w3 : r128Wf ⟨a.hi * b.lo % W64, a.hi * b.lo / W64⟩ :=
    r128Wf_mk _ _ (Nat.mod_lt _ (by unfold W64; norm_num)) (by unfold W64 at *; omega)
  have w4 : r128Wf ⟨a.lo * b.hi % W64, a.lo * b.hi / W64⟩ :=
    r128Wf_mk _ _ (Nat.mod_lt _ (by unfold W64; norm_num)) (by unfold W64 at *; omega)
  rw [r128Add_eq _ _ w1 w2, r128Add_eq _ _ (r128OfRaw_wf _) w3,
    r128Add_eq _ _ (r128OfRaw_wf _) w4, r128Raw_ofRaw, r128Raw_ofRaw]
  apply r128OfRaw_congr
  unfold r128Raw W128 W64 at *
  dsimp only
  omega

/-- The kernel's add coincides with the host's. -/
theorem clAdd_eq_host : CLR128.r128Add = r128Add := rfl

/-- The kernel's 64x64 multiply helper coincides with the host's on
64-bit words. -/
theorem clUmul128_eq (a b : ℕ) (ha : a < W64) (hb : b < W64) :
    CLR128.r128__umul128 a b = r128__umul128 a b := by
  have hmask : ∀ x : ℕ, x &&& 4294967295 = x % 2 ^ 32 := by
    intro x
    have h := Nat.and_pow_two_sub_one_eq_mod x 32
    rwa [show ((2 : ℕ) ^ 32 - 1) = 4294967295 by norm_num] at h
  have ha1 : a / 2 ^ 32 < 2 ^ 32 := by unfold W64 at ha; omega
  have hb1 : b / 2 ^ 32 < 2 ^ 32 := by unfold W64 at hb; omega
  unfold CLR128.r128__umul128 r128__umul128
  dsimp only
  simp only [hmask, Nat.shiftRight_eq_div_pow, Nat.shiftLeft_eq,
    Nat.mod_eq_of_lt ha1, Nat.mod_eq_of_lt hb1]
  rw [R128.mk.injEq]
  unfold W64
  refine ⟨by omega, by omega⟩

/-- The low word of the kernel's 60-bit right shift of a split
product. -/
theorem clShr60_lo (p : ℕ) :
    (CLR128.r128Shr ⟨p % W64, p / W64⟩ 60).lo = p / 2 ^ 60 % W64 := by
  unfold CLR128.r128Shr W64
  dsimp only
  norm_num
  rw [Nat.shiftRight_eq_div_pow, Nat.shiftLeft_eq]
  have hY : p / 18446744073709551616 * 2 ^ 4 % 18446744073709551616 =
      2 ^ 4 * (p / 18446744073709551616 % 2 ^ 60) := by omega
  rw [hY, Nat.lor_comm, ← Nat.mul_add_lt_is_or (by omega) _]
  omega

/-- The kernel multiply core in closed form: like the host core, but
with the `a.hi * b.lo` cross product accumulated twice in place of the
two distinct cross products. -/
theorem cl_umul_eq (a b : R128) (ha : r128Wf a) (hb : r128Wf b) :
    CLR128.r128__umul a b = r128OfRaw
      (a.hi * b.hi / 2 ^ 60 % W64 * W64 + a.lo * b.lo / W64
        + (a.hi * b.lo + a.hi * b.lo)) := by
  obtain ⟨halo, hahi⟩ := ha
  obtain ⟨hblo, hbhi⟩ := hb
  have pll := mulW64_lt a.lo b.lo halo hblo
  have phl := mulW64_lt a.hi b.lo hahi hblo
  unfold CLR128.r128__umul
  rw [clUmul128_eq a.lo b.lo halo hblo, clUmul128_eq a.hi b.lo hahi hblo,
    clUmul128_eq a.hi b.hi hahi hbhi]
  rw [r128__umul128_eq a.lo b.lo halo hblo, r128__umul128_eq a.hi b.lo hahi hblo,
    r128__umul128_eq a.hi b.hi hahi hbhi]
  dsimp only
  rw [clShr60_lo, clAdd_eq_host]
  have w1 : r128Wf ⟨a.lo * b.lo / W64, a.hi * b.hi / 2 ^ 60 % W64⟩ :=
    r128Wf_mk _ _ (by unfold W64 at *; omega) (Nat.mod_lt _ (by unfold W64; norm_num))
  have w3 : r128Wf ⟨a.hi * b.lo % W64, a.hi * b.lo / W64⟩ :=
    r128Wf_mk _ _ (Nat.mod_lt _ (by unfold W64; norm_num)) (by unfold W64 at *; omega)
  rw [r128Add_eq _ _ w1 w3, r128Add_eq _ _ (r128OfRaw_wf _) w3, r128Raw_ofRaw]
  apply r128OfRaw_congr
  unfold r128Raw W128 W64 at *
  dsimp only
  omega

/-! ## Claim C9 -/

/-- C9 counterexample: the claim says the kernel's general multiply
returns the same result as the host's for every operand pair.  At
`a = {lo 1, hi 0}`, `b = {lo 0, hi 1}` (both positive) the host core
accumulates the cross product `a.lo * b.hi = 1` once, giving `{1, 0}`;
the kernel core instead accumulates `a.hi * b.lo = 0` twice, giving
`{0, 0}`. -/
theorem kernel_vs_host_mul_differ :
    CLR128.r128Mul ⟨1, 0⟩ ⟨0, 1⟩ = ⟨0, 0⟩ ∧
    r128Mul ⟨1, 0⟩ ⟨0, 1⟩ = ⟨1, 0⟩ ∧
    CLR128.r128Mul ⟨1, 0⟩ ⟨0, 1⟩ ≠ r128Mul ⟨1, 0⟩ ⟨0, 1⟩ := by decide

/-- C9 amended: the kernel's unsigned multiply core agrees with the
host's exactly when the two cross partial products coincide
(`a.hi * b.lo = a.lo * b.hi` — in particular whenever the operands are
equal, the squaring case); whenever they differ, the two cores return
different results, so the two general multiplies do not agree in
general. -/
theorem kernel_umul_matches_host_iff (a b : R128) (ha : r128Wf a) (hb : r128Wf b) :
    CLR128.r128__umul a b = r128__umul a b ↔ a.hi * b.lo = a.lo * b.hi := by
  rw [cl_umul_eq a b ha hb, r128__umul_eq a b ha hb]
  obtain ⟨halo, hahi⟩ := ha
  obtain ⟨hblo, hbhi⟩ := hb
  have phl := mulW64_lt a.hi b.lo hahi hblo
  have plh := mulW64_lt a.lo b.hi halo hbhi
  constructor
  · intro h
    have h2 := congrArg r128Raw h
    rw [r128Raw_ofRaw, r128Raw_ofRaw] at h2
    unfold W128 W64 at *
    omega
  · intro h
    apply r128OfRaw_congr
    rw [h]
    unfold W128 W64
    omega

/-- Witness for the amended C9 theorem: a squaring pair, on which the
two cores agree. -/
theorem kernel_umul_matches_host_iff_witness :
    r128Wf ⟨2, 3⟩ ∧
    (CLR128.r128__umul ⟨2, 3⟩ ⟨2, 3⟩ = r128__umul ⟨2, 3⟩ ⟨2, 3⟩ ↔
      (⟨2, 3⟩ : R128).hi * (⟨2, 3⟩ : R128).lo = (⟨2, 3⟩ : R128).lo * (⟨2, 3⟩ : R128).hi) :=
  ⟨by decide, kernel_umul_matches_host_iff ⟨2, 3⟩ ⟨2, 3⟩ (by decide) (by decide)⟩

/-! ## Claim C1 -/

/-- C1 counterexample: the claim says `mul` agrees bit-exactly with the
reference 256-bit multiply rescaled by 124 bits.  At
`a = 1 + 2^-61` (raw `{lo 2^63, hi 2^60}`) and `b = 1.0`
(raw `{lo 0, hi 2^60}`) the reference returns `a` itself, but the code
returns 1.5 (raw `{0, 2^60 + 2^59}`): the cross partial product
`a.lo * b.hi` enters the sum without the 60-bit rescale, so its weight
is `2^60` times too large. -/
theorem mul_disagrees_with_reference :
    r128Mul ⟨2 ^ 63, 2 ^ 60⟩ ⟨0, 2 ^ 60⟩ = ⟨0, 2 ^ 60 + 2 ^ 59⟩ ∧
    specMulReference ⟨2 ^ 63, 2 ^ 60⟩ ⟨0, 2 ^ 60⟩ = ⟨2 ^ 63, 2 ^ 60⟩ ∧
    r128Mul ⟨2 ^ 63, 2 ^ 60⟩ ⟨0, 2 ^ 60⟩ ≠
      specMulReference ⟨2 ^ 63, 2 ^ 60⟩ ⟨0, 2 ^ 60⟩ := by decide

/-- Negating a pair with a zero low word. -/
theorem r128__neg_zlo (h : ℕ) : r128__neg ⟨0, h⟩ = ⟨0, (W64 - 1 - h + 1) % W64⟩ := by
  unfold r128__neg
  simp

/-- On operands with zero low words the host multiply core reduces to
the rescaled high-high product alone, truncated to the high word. -/
theorem r128__umul_hionly (a b : R128) (ha : r128Wf a) (hb : r128Wf b)
    (hla : a.lo = 0) (hlb : b.lo = 0) :
    r128__umul a b = ⟨0, a.hi * b.hi / 2 ^ 60 % W64⟩ := by
  rw [r128__umul_eq a b ha hb, hla, hlb]
  unfold r128OfRaw
  rw [R128.mk.injEq]
  unfold W64
  refine ⟨by omega, by omega⟩

/-- C1 amended: for operands whose low words are zero — the only values
the program itself produces, since `r128FromInt` and (in practice)
`r128FromFloat` leave the low word clear — `r128Mul` returns the
reference product with the low 64 bits of its unsigned part truncated
to zero before the sign is reapplied.  For operands with nonzero low
words the bit-exact reference agreement fails, as the counterexample
shows. -/
theorem mul_matches_low_cleared_reference (a b : R128) (ha : r128Wf a) (hb : r128Wf b)
    (hla : a.lo = 0) (hlb : b.lo = 0) :
    r128Mul a b =
      if xor (r128IsNeg a) (r128IsNeg b)
      then r128__neg ⟨0, (specMulUnsigned a b).hi⟩
      else ⟨0, (specMulUnsigned a b).hi⟩ := by
  obtain ⟨alo, ahi⟩ := a
  obtain ⟨blo, bhi⟩ := b
  obtain ⟨halo, hahi⟩ := ha
  obtain ⟨hblo, hbhi⟩ := hb
  dsimp only at hla hlb halo hahi hblo hbhi
  subst hla
  subst hlb
  have hof : ∀ x y : ℕ,
      (r128OfRaw ((W64 * x * (W64 * y)) >>> 124)).hi = x * y / 2 ^ 60 % W64 := by
    intro x y
    unfold r128OfRaw
    dsimp only
    rw [Nat.shiftRight_eq_div_pow, show W64 * x * (W64 * y) = W64 * W64 * (x * y) by ring]
    unfold W64
    omega
  have hraw : ∀ x : ℕ, r128Raw ⟨0, x⟩ = W64 * x := by
    intro x
    unfold r128Raw
    dsimp only
    omega
  have hwf : ∀ x : ℕ, x < W64 → r128Wf (⟨0, x⟩ : R128) :=
    fun x hx => r128Wf_mk _ _ (by unfold W64; norm_num) hx
  have hwfn : ∀ x : ℕ, r128Wf (⟨0, (W64 - 1 - x + 1) % W64⟩ : R128) :=
    fun x => r128Wf_mk _ _ (by unfold W64; norm_num)
      (Nat.mod_lt _ (by unfold W64; norm_num))
  unfold r128Mul specMulUnsigned specMagnitude
  cases hsa : r128IsNeg ⟨0, ahi⟩ <;> cases hsb : r128IsNeg ⟨0, bhi⟩ <;>
    simp only [hsa, hsb, Bool.xor_false, Bool.xor_true, Bool.not_false, Bool.not_true,
      Bool.false_xor, Bool.true_xor, if_true, if_false, Bool.false_eq_true,
      r128__neg_zlo, hraw]
  · rw [r128__umul_hionly _ _ (hwf _ hahi) (hwf _ hbhi) rfl rfl]
    dsimp only
    rw [hof]
  · rw [r128__umul_hionly _ _ (hwf _ hahi) (hwfn bhi) rfl rfl]
    simp only [r128__neg_zlo]
    try dsimp only
    rw [hof]
  · rw [r128__umul_hionly _ _ (hwfn ahi) (hwf _ hbhi) rfl rfl]
    simp only [r128__neg_zlo]
    try dsimp only
    rw [hof]
  · rw [r128__umul_hionly _ _ (hwfn ahi) (hwfn bhi) rfl rfl]
    dsimp only
    rw [hof]

/-- Witness for the amended C1 theorem: `(-1) * 1` on zero low words,
exercising a negative operand and the sign reapplication. -/
theorem mul_matches_low_cleared_reference_witness :
    r128Wf (r128FromInt (-1)) ∧ r128Wf (r128FromInt 1) ∧
    (r128FromInt (-1)).lo = 0 ∧ (r128FromInt 1).lo = 0 ∧
    r128Mul (r128FromInt (-1)) (r128FromInt 1) =
      (if xor (r128IsNeg (r128FromInt (-1))) (r128IsNeg (r128FromInt 1))
       then r128__neg ⟨0, (specMulUnsigned (r128FromInt (-1)) (r128FromInt 1)).hi⟩
       else ⟨0, (specMulUnsigned (r128FromInt (-1)) (r128FromInt 1)).hi⟩) :=
  ⟨by decide, by decide, by decide, by decide,
    mul_matches_low_cleared_reference _ _ (by decide) (by decide) (by decide) (by decide)⟩

/-! ## Claim C4 -/

/-- The invariant is preserved by every step. -/
theorem Sched.inv_step (s t : SState) (hs : Inv s) (st : Step s t) : Inv t := by
  obtain ⟨h1, h2, h3⟩ := hs
  cases st with
  | request => exact ⟨h1, h2, h3⟩
  | wake g1 g2 => exact ⟨h1, h2, fun hf => absurd hf (by simp)⟩
  | spinExit g1 g2 => exact ⟨h1, h2, fun _ => g2⟩
  | launch g1 =>
    refine ⟨?_, ?_, ?_⟩
    · have := h2 (h3 g1)
      simp only
      omega
    · intro hf
      simp at hf
    · intro hf
      simp at hf
  | finish g1 => exact ⟨h1, h2, fun hf => absurd hf (by simp)⟩
  | collect g1 g2 =>
    refine ⟨?_, ?_, ?_⟩
    · simp only
      omega
    · intro _
      simp only
      omega
    · intro _
      rfl

/-- The invariant holds in every reachable state. -/
theorem Sched.inv_reach (s : SState) (h : Reach s) : Inv s := by
  induction h with
  | init => exact ⟨by decide, fun _ => rfl, fun _ => rfl⟩
  | step s t hs st ih => exact inv_step s t ih st

/-- C4: in every reachable interleaving of the requester, worker and
display tasks, at most one evaluation batch is pending at any time, and
any step that dispatches a new batch (increases the in-flight count) is
taken from a state in which no batch is in flight — no matter how many
`request()` calls are issued while Running, since the model lets the
recalc flag be raised at any moment. -/
theorem single_flight :
    (∀ s : Sched.SState, Sched.Reach s → s.inFlight ≤ 1) ∧
    (∀ s t : Sched.SState, Sched.Reach s → Sched.Step s t →
      t.inFlight = s.inFlight + 1 → s.inFlight = 0) := by
  constructor
  · intro s hs
    exact (Sched.inv_reach s hs).1
  · intro s t hs st hinc
    obtain ⟨h1, h2, h3⟩ := Sched.inv_reach s hs
    cases st with
    | launch g1 => exact h2 (h3 g1)
    | request => simp at hinc
    | wake g1 g2 => simp at hinc
    | spinExit g1 g2 => simp at hinc
    | finish g1 => simp at hinc
    | collect g1 g2 =>
      simp only at hinc
      omega

/-- Witness for C4: a concrete reachable pre-dispatch state and the
dispatch step out of it. -/
theorem single_flight_witness :
    (⟨false, true, Sched.WPC.launch, 0⟩ : Sched.SState).inFlight ≤ 1 ∧
    (⟨false, true, Sched.WPC.launch, 0⟩ : Sched.SState).inFlight = 0 := by
  have hr : Sched.Reach ⟨false, true, Sched.WPC.launch, 0⟩ :=
    Sched.Reach.step _ _
      (Sched.Reach.step _ _
        (Sched.Reach.step _ _ Sched.Reach.init (Sched.Step.request _))
        (Sched.Step.wake _ rfl rfl))
      (Sched.Step.spinExit _ rfl rfl)
  exact ⟨single_flight.1 _ hr,
    single_flight.2 _ ⟨true, true, Sched.WPC.clear, 1⟩ hr (Sched.Step.launch _ rfl) rfl⟩
